import Mathlib

/-!
Shallow embedding of `src/orquestra/integrations/cirq/simulator/_base.py`
(`CirqBasedSimulator`), an adapter that translates generic circuits to a
backend-native representation, delegates simulation to an externally supplied
simulator object, and translates the results back.

External library functions (`export_to_cirq`, `with_noise`, the simulator's
`simulate` method, `get_sparse_operator(...).toarray()`, `density_matrix_of`,
the `final_state_vector` attribute) are black boxes: they are fields of a
`CirqEnv`/`CirqBasedSimulator` record, each returning `Except LibErr _` so that
exceptions raised inside the wrapped library are representable.  The embedded
adapter functions additionally return the ordered list of external calls they
made (an `ExtCall` trace, each event recording the call's arguments and its
outcome), so that claims about call ordering, call counts and error
propagation can be stated and proved.
-/

set_option maxHeartbeats 1000000

deriving instance DecidableEq for Except

/-- Exact complex scalar standing in for Python complex values (floating-point
precision is not modelled; the numeric fields are exact integers, which the
adapter's own arithmetic never leaves). -/
structure CC where
  re : ℤ
  im : ℤ
deriving DecidableEq, Repr

instance : Zero CC := ⟨⟨0, 0⟩⟩

instance : Add CC := ⟨fun a b => ⟨a.re + b.re, a.im + b.im⟩⟩

instance : Mul CC := ⟨fun a b => ⟨a.re * b.re - a.im * b.im, a.re * b.im + a.im * b.re⟩⟩

/-- Dense 2-D ndarray of complex entries, as produced by
`get_sparse_operator(...).toarray()` and by `density_matrix_of()`. -/
abbrev Mat := List (List CC)

/-- Entry lookup with numpy-style semantics restricted to in-range use; out of
range indices give 0 (the adapter only indexes `[0][0]` on a size-1 array). -/
def getEntry (m : Mat) (i j : Nat) : CC := (m.getD i []).getD j 0

/-- Number of scalar entries of the array, `np.size`. -/
def npSize (m : Mat) : Nat := (m.map List.length).sum

/-- The entry `m[0][0]` read in the constant-term branch. -/
def entry00 (m : Mat) : CC := getEntry m 0 0

/-- Matrix product `A @ B` on the dense representation. -/
def matMul (A B : Mat) : Mat :=
  (List.range A.length).map (fun i =>
    (List.range (B.getD 0 []).length).map (fun j =>
      ((List.range B.length).map (fun k => getEntry A i k * getEntry B k j)).foldl (· + ·) 0))

/-- Trace of a square matrix, `np.trace`. -/
def cTrace (m : Mat) : CC :=
  ((List.range m.length).map (fun i => getEntry m i i)).foldl (· + ·) 0

/-- One operation of a generic (orquestra) circuit: the identity gate `I(q)`
that the adapter appends, or any other gate (abstract id) acting on a qubit. -/
inductive GateOp where
  | I (qubit : Nat)
  | G (id : Nat) (qubit : Nat)
deriving DecidableEq, Repr

/-- The qubit an operation acts on. -/
def GateOp.qubit : GateOp → Nat
  | .I q => q
  | .G _ q => q

/-- Generic circuit: an ordered list of operations together with its qubit
count (`Circuit.n_qubits`). -/
structure Circuit where
  ops : List GateOp
  n_qubits : Nat
deriving DecidableEq, Repr

/-- Appending one operation (`circuit + op` in orquestra) returns a new
circuit; `n_qubits` grows to cover the operation's qubit. -/
def Circuit.addOp (c : Circuit) (g : GateOp) : Circuit :=
  ⟨c.ops ++ [g], max c.n_qubits (g.qubit + 1)⟩

/-- The loop `for i in range(circuit.n_qubits): circuit += I(i)` of
`_get_wavefunction_from_native_circuit`.  Each `+=` rebinds the local name to
a freshly built circuit, so this is a pure function of the input circuit and
the caller's circuit object is untouched. -/
def addIdentityGates (c : Circuit) : Circuit :=
  (List.range c.n_qubits).foldl (fun acc i => acc.addOp (GateOp.I i)) c

/-- Abstract identifier for an error raised inside the wrapped library. -/
abbrev LibErr := Nat

/-- Abstract noise model (`cirq.NOISE_MODEL_LIKE` with `None` handled by an
`Option` at the use site). -/
abbrev NoiseModel := Nat

/-- Abstract param resolver (`cirq.ParamResolverOrSimilarType` with `None`
handled by an `Option` at the use site). -/
abbrev ParamResolver := Nat

/-- Qubit ordering argument; `DEFAULT` is `cirq.ops.QubitOrder.DEFAULT`. -/
inductive QubitOrder where
  | DEFAULT
  | explicitOrder (perm : List Nat)
deriving DecidableEq, Repr

/-- Abstract Pauli term of a qubit operator. -/
abbrev PauliTerm := Nat

/-- Qubit operator (`PauliRepresentation`): the ordered list of its terms. -/
structure PauliRepresentation where
  terms : List PauliTerm
deriving DecidableEq, Repr

/-- Modelled from the spec: `ExpectationValues` (from the external
`orquestra.quantum.measurements` module, not part of this repository) wraps the
array of expectation values, one per operator term. -/
structure ExpectationValues where
  values : List CC
deriving DecidableEq, Repr

/-- Modelled from the spec: `expectation_values_to_real` (external
`orquestra.quantum.measurements`, not part of this repository) discards the
imaginary part of every stored value, so the final result is real. -/
def expectation_values_to_real (ev : ExpectationValues) : ExpectationValues :=
  ⟨ev.values.map (fun v => ⟨v.re, 0⟩)⟩

/-- Keyword arguments of the wrapped simulator's `simulate` method, with the
Python defaults `param_resolver=None`, `qubit_order=QubitOrder.DEFAULT`,
`initial_state=None` made explicit. -/
structure SimulateArgs (C : Type) where
  program : C
  param_resolver : Option ParamResolver
  qubit_order : QubitOrder
  initial_state : Option (List CC)
deriving DecidableEq, Repr

/-- Black-box external library functions used by the adapter.  `C` is the
backend-native circuit type, `R` the backend-native simulation-result type;
each call may raise a library error. -/
structure CirqEnv (C R : Type) where
  export_to_cirq : Circuit → Except LibErr C
  with_noise : C → NoiseModel → Except LibErr C
  final_state_vector : R → Except LibErr (List CC)
  density_matrix_of : R → Except LibErr Mat
  get_sparse_operator : PauliTerm → Nat → Except LibErr Mat

/-- The adapter's own state, set once in `__init__` and never mutated:
the externally supplied simulator object (represented by its `simulate`
method), the optional noise model, the optional param resolver and the qubit
order. -/
structure CirqBasedSimulator (C R : Type) where
  simulator : SimulateArgs C → Except LibErr R
  noise_model : Option NoiseModel
  param_resolver : Option ParamResolver
  qubit_order : QubitOrder

/-- One external call made by the adapter, recording its arguments and its
outcome. -/
inductive ExtCall (C R : Type) where
  | export_to_cirq (arg : Circuit) (out : Except LibErr C)
  | with_noise (arg : C) (nm : NoiseModel) (out : Except LibErr C)
  | simulate (args : SimulateArgs C) (out : Except LibErr R)
  | get_sparse_operator (t : PauliTerm) (n : Nat) (out : Except LibErr Mat)
  | density_matrix_of (r : R) (out : Except LibErr Mat)
  | final_state_vector (r : R) (out : Except LibErr (List CC))
deriving DecidableEq

/-- The library error an external call raised, if it raised one. -/
def ExtCall.errOf {C R : Type} : ExtCall C R → Option LibErr
  | .export_to_cirq _ (.error e) => some e
  | .with_noise _ _ (.error e) => some e
  | .simulate _ (.error e) => some e
  | .get_sparse_operator _ _ (.error e) => some e
  | .density_matrix_of _ (.error e) => some e
  | .final_state_vector _ (.error e) => some e
  | _ => none

/-- Whether an event is a call to `export_to_cirq`. -/
def ExtCall.isExport {C R : Type} : ExtCall C R → Bool
  | .export_to_cirq _ _ => true
  | _ => false

/-- Whether an event is a call to the simulator's `simulate` method. -/
def ExtCall.isSimulate {C R : Type} : ExtCall C R → Bool
  | .simulate _ _ => true
  | _ => false

/-- Errors an adapter entry point can finish with: the `RuntimeError` the
adapter itself raises when the noise model is missing, or a propagated
library error. -/
inductive SimError where
  | runtimeErrorMissingNoiseModel
  | lib (e : LibErr)
deriving DecidableEq, Repr

/-- Body of one iteration of the term loop of
`get_exact_noisy_expectation_values`: sparsify the term; if the array has a
single entry take it directly, otherwise apply the noise model to the
converted circuit, simulate it (no keyword arguments), extract the density
matrix and take the real part of the trace against the term's array. -/
def termStep {C R : Type} (env : CirqEnv C R) (sim : CirqBasedSimulator C R)
    (nm : NoiseModel) (cc : C) (n : Nat) (t : PauliTerm) :
    Except SimError CC × List (ExtCall C R) :=
  match env.get_sparse_operator t n with
  | .error e => (.error (.lib e), [.get_sparse_operator t n (.error e)])
  | .ok m =>
    if npSize m = 1 then
      (.ok (entry00 m), [.get_sparse_operator t n (.ok m)])
    else
      match env.with_noise cc nm with
      | .error e =>
        (.error (.lib e),
         [.get_sparse_operator t n (.ok m), .with_noise cc nm (.error e)])
      | .ok noisy =>
        match sim.simulator ⟨noisy, none, .DEFAULT, none⟩ with
        | .error e =>
          (.error (.lib e),
           [.get_sparse_operator t n (.ok m), .with_noise cc nm (.ok noisy),
            .simulate ⟨noisy, none, .DEFAULT, none⟩ (.error e)])
        | .ok r =>
          match env.density_matrix_of r with
          | .error e =>
            (.error (.lib e),
             [.get_sparse_operator t n (.ok m), .with_noise cc nm (.ok noisy),
              .simulate ⟨noisy, none, .DEFAULT, none⟩ (.ok r),
              .density_matrix_of r (.error e)])
          | .ok rho =>
            (.ok ⟨(cTrace (matMul rho m)).re, 0⟩,
             [.get_sparse_operator t n (.ok m), .with_noise cc nm (.ok noisy),
              .simulate ⟨noisy, none, .DEFAULT, none⟩ (.ok r),
              .density_matrix_of r (.ok rho)])

/-- The term loop of `get_exact_noisy_expectation_values`: process the
operator's terms in order, accumulating the `values` list; an exception in any
iteration aborts the loop and propagates, keeping the trace of the calls
already made. -/
def termLoop {C R : Type} (env : CirqEnv C R) (sim : CirqBasedSimulator C R)
    (nm : NoiseModel) (cc : C) (n : Nat) :
    List PauliTerm → Except SimError (List CC) × List (ExtCall C R)
  | [] => (.ok [], [])
  | t :: ts =>
    match termStep env sim nm cc n t with
    | (.error e, tr) => (.error e, tr)
    | (.ok v, tr) =>
      match termLoop env sim nm cc n ts with
      | (res, tr2) => (res.map (fun vs => v :: vs), tr ++ tr2)

/-- `CirqBasedSimulator.get_exact_noisy_expectation_values`: raise
`RuntimeError` when the noise model is `None`; otherwise convert the circuit
once via `export_to_cirq`, run the term loop, and return the real parts of the
collected values.  The returned list is the ordered trace of external calls. -/
def get_exact_noisy_expectation_values {C R : Type} (env : CirqEnv C R)
    (sim : CirqBasedSimulator C R) (circuit : Circuit)
    (qubit_operator : PauliRepresentation) :
    Except SimError ExpectationValues × List (ExtCall C R) :=
  match sim.noise_model with
  | none => (.error .runtimeErrorMissingNoiseModel, [])
  | some nm =>
    match env.export_to_cirq circuit with
    | .error e => (.error (.lib e), [.export_to_cirq circuit (.error e)])
    | .ok cirq_circuit =>
      match termLoop env sim nm cirq_circuit circuit.n_qubits qubit_operator.terms with
      | (res, tr) =>
        (res.map (fun vs => expectation_values_to_real ⟨vs⟩),
         .export_to_cirq circuit (.ok cirq_circuit) :: tr)

/-- `CirqBasedSimulator._get_wavefunction_from_native_circuit`: append an
identity gate on every qubit, convert the padded circuit via `export_to_cirq`,
call the wrapped simulator's `simulate` with the adapter's stored
`param_resolver` and `qubit_order` and the given initial state, and return the
result's `final_state_vector`.  (The `np.array(initial_state, np.complex64)`
dtype cast is a floating-point representation change not modelled here.) -/
def get_wavefunction_from_native_circuit {C R : Type} (env : CirqEnv C R)
    (sim : CirqBasedSimulator C R) (circuit : Circuit)
    (initial_state : List CC) :
    Except SimError (List CC) × List (ExtCall C R) :=
  match env.export_to_cirq (addIdentityGates circuit) with
  | .error e =>
    (.error (.lib e), [.export_to_cirq (addIdentityGates circuit) (.error e)])
  | .ok cc =>
    match sim.simulator ⟨cc, sim.param_resolver, sim.qubit_order, some initial_state⟩ with
    | .error e =>
      (.error (.lib e),
       [.export_to_cirq (addIdentityGates circuit) (.ok cc),
        .simulate ⟨cc, sim.param_resolver, sim.qubit_order, some initial_state⟩ (.error e)])
    | .ok r =>
      match env.final_state_vector r with
      | .error e =>
        (.error (.lib e),
         [.export_to_cirq (addIdentityGates circuit) (.ok cc),
          .simulate ⟨cc, sim.param_resolver, sim.qubit_order, some initial_state⟩ (.ok r),
          .final_state_vector r (.error e)])
      | .ok wf =>
        (.ok wf,
         [.export_to_cirq (addIdentityGates circuit) (.ok cc),
          .simulate ⟨cc, sim.param_resolver, sim.qubit_order, some initial_state⟩ (.ok r),
          .final_state_vector r (.ok wf)])

/-- Concrete backend-circuit/result instantiation (both `Nat`) with every
external call succeeding; used to exercise the theorems on explicit inputs. -/
def exEnv : CirqEnv Nat Nat :=
  { export_to_cirq := fun c => .ok c.n_qubits
    with_noise := fun cc nm => .ok (cc + 10 * nm + 1)
    final_state_vector := fun r => .ok [⟨r, 0⟩]
    density_matrix_of := fun _ => .ok [[⟨1, 0⟩, 0], [0, 0]]
    get_sparse_operator := fun t _ =>
      if t = 0 then .ok [[⟨3, 1⟩]] else .ok [[⟨1, 0⟩, 0], [0, ⟨-1, 0⟩]] }

/-- Concrete adapter instance with a noise model and a param resolver set. -/
def exSim : CirqBasedSimulator Nat Nat :=
  { simulator := fun args => .ok (args.program + 100)
    noise_model := some 2
    param_resolver := some 7
    qubit_order := .DEFAULT }

/-- The same adapter with no noise model. -/
def exSimNoNoise : CirqBasedSimulator Nat Nat :=
  { exSim with noise_model := none }

/-- Concrete two-qubit input circuit. -/
def exCircuit : Circuit := ⟨[GateOp.G 0 0, GateOp.G 1 1], 2⟩

/-- Concrete operator: term `0` sparsifies (under `exEnv`) to a single-entry
array, term `1` to a 2×2 array. -/
def exOp : PauliRepresentation := ⟨[0, 1]⟩

/-- Environment whose sparse operator for every term is the single-entry array
`[[i]]` (a purely imaginary constant). -/
def imagEnv : CirqEnv Nat Nat :=
  { exEnv with get_sparse_operator := fun _ _ => .ok [[⟨0, 1⟩]] }

/-- One-term operator used with `imagEnv`. -/
def imagOp : PauliRepresentation := ⟨[0]⟩

/-- Environment whose operator sparsification raises library error `42`. -/
def failEnv : CirqEnv Nat Nat :=
  { exEnv with get_sparse_operator := fun _ _ => .error 42 }

/-- Value the loop records for one operator term: the first component of
`termStep`. -/
def termValue {C R : Type} (env : CirqEnv C R) (sim : CirqBasedSimulator C R)
    (nm : NoiseModel) (cc : C) (n : Nat) (t : PauliTerm) : Except SimError CC :=
  (termStep env sim nm cc n t).1

/-- Per-term values of a list of terms, in order, with exception cut-off at
the first failing term. -/
def termValues {C R : Type} (env : CirqEnv C R) (sim : CirqBasedSimulator C R)
    (nm : NoiseModel) (cc : C) (n : Nat) :
    List PauliTerm → Except SimError (List CC)
  | [] => .ok []
  | t :: ts =>
    match termValue env sim nm cc n t with
    | .error e => .error e
    | .ok v => (termValues env sim nm cc n ts).map (fun vs => v :: vs)

/-- Case analysis on one iteration of the term loop: the six possible
call/outcome shapes of `termStep`. -/
theorem termStep_shape {C R : Type} (env : CirqEnv C R) (sim : CirqBasedSimulator C R)
    (nm : NoiseModel) (cc : C) (n : Nat) (t : PauliTerm) :
    (∃ e, env.get_sparse_operator t n = .error e ∧
      termStep env sim nm cc n t =
        (.error (.lib e), [.get_sparse_operator t n (.error e)]))
  ∨ (∃ m, env.get_sparse_operator t n = .ok m ∧ npSize m = 1 ∧
      termStep env sim nm cc n t =
        (.ok (entry00 m), [.get_sparse_operator t n (.ok m)]))
  ∨ (∃ m e, env.get_sparse_operator t n = .ok m ∧ ¬ npSize m = 1 ∧
      env.with_noise cc nm = .error e ∧
      termStep env sim nm cc n t =
        (.error (.lib e),
         [.get_sparse_operator t n (.ok m), .with_noise cc nm (.error e)]))
  ∨ (∃ m noisy e, env.get_sparse_operator t n = .ok m ∧ ¬ npSize m = 1 ∧
      env.with_noise cc nm = .ok noisy ∧
      sim.simulator ⟨noisy, none, .DEFAULT, none⟩ = .error e ∧
      termStep env sim nm cc n t =
        (.error (.lib e),
         [.get_sparse_operator t n (.ok m), .with_noise cc nm (.ok noisy),
          .simulate ⟨noisy, none, .DEFAULT, none⟩ (.error e)]))
  ∨ (∃ m noisy r e, env.get_sparse_operator t n = .ok m ∧ ¬ npSize m = 1 ∧
      env.with_noise cc nm = .ok noisy ∧
      sim.simulator ⟨noisy, none, .DEFAULT, none⟩ = .ok r ∧
      env.density_matrix_of r = .error e ∧
      termStep env sim nm cc n t =
        (.error (.lib e),
         [.get_sparse_operator t n (.ok m), .with_noise cc nm (.ok noisy),
          .simulate ⟨noisy, none, .DEFAULT, none⟩ (.ok r),
          .density_matrix_of r (.error e)]))
  ∨ (∃ m noisy r rho, env.get_sparse_operator t n = .ok m ∧ ¬ npSize m = 1 ∧
      env.with_noise cc nm = .ok noisy ∧
      sim.simulator ⟨noisy, none, .DEFAULT, none⟩ = .ok r ∧
      env.density_matrix_of r = .ok rho ∧
      termStep env sim nm cc n t =
        (.ok ⟨(cTrace (matMul rho m)).re, 0⟩,
         [.get_sparse_operator t n (.ok m), .with_noise cc nm (.ok noisy),
          .simulate ⟨noisy, none, .DEFAULT, none⟩ (.ok r),
          .density_matrix_of r (.ok rho)])) := by
  rcases h1 : env.get_sparse_operator t n with e | m
  · exact Or.inl ⟨e, rfl, by simp [termStep, h1]⟩
  · by_cases hs : npSize m = 1
    · exact Or.inr (Or.inl ⟨m, rfl, hs, by simp [termStep, h1, hs]⟩)
    · rcases h2 : env.with_noise cc nm with e | noisy
      · exact Or.inr (Or.inr (Or.inl ⟨m, e, rfl, hs, rfl, by simp [termStep, h1, hs, h2]⟩))
      · rcases h3 : sim.simulator ⟨noisy, none, .DEFAULT, none⟩ with e | r
        · exact Or.inr (Or.inr (Or.inr (Or.inl
            ⟨m, noisy, e, rfl, hs, rfl, h3, by simp [termStep, h1, hs, h2, h3]⟩)))
        · rcases h4 : env.density_matrix_of r with e | rho
          · exact Or.inr (Or.inr (Or.inr (Or.inr (Or.inl
              ⟨m, noisy, r, e, rfl, hs, rfl, h3, h4, by simp [termStep, h1, hs, h2, h3, h4]⟩))))
          · exact Or.inr (Or.inr (Or.inr (Or.inr (Or.inr
              ⟨m, noisy, r, rho, rfl, hs, rfl, h3, h4, by simp [termStep, h1, hs, h2, h3, h4]⟩))))

/-- The trace of a successful `termStep` contains no failing call. -/
theorem termStep_ok_trace {C R : Type} (env : CirqEnv C R) (sim : CirqBasedSimulator C R)
    (nm : NoiseModel) (cc : C) (n : Nat) (t : PauliTerm) (v : CC) (tr : List (ExtCall C R))
    (h : termStep env sim nm cc n t = (.ok v, tr)) :
    ∀ ev ∈ tr, ev.errOf = none := by
  rcases termStep_shape env sim nm cc n t with
    ⟨e, h1, h5⟩ | ⟨m, h1, hs, h5⟩ | ⟨m, e, h1, hs, h2, h5⟩ |
    ⟨m, noisy, e, h1, hs, h2, h3, h5⟩ | ⟨m, noisy, r, e, h1, hs, h2, h3, h4, h5⟩ |
    ⟨m, noisy, r, rho, h1, hs, h2, h3, h4, h5⟩ <;>
  rw [h5] at h <;>
  simp only [Prod.mk.injEq, Except.ok.injEq, Except.error.injEq] at h
  · exact absurd h.1 (fun hh => Except.noConfusion hh)
  · rw [← h.2]; simp [ExtCall.errOf]
  · exact absurd h.1 (fun hh => Except.noConfusion hh)
  · exact absurd h.1 (fun hh => Except.noConfusion hh)
  · exact absurd h.1 (fun hh => Except.noConfusion hh)
  · rw [← h.2]; simp [ExtCall.errOf]

/-- A failing `termStep` fails with a propagated library error: the trace
ends with the failing call carrying exactly that error, and every earlier
call succeeded. -/
theorem termStep_err_shape {C R : Type} (env : CirqEnv C R) (sim : CirqBasedSimulator C R)
    (nm : NoiseModel) (cc : C) (n : Nat) (t : PauliTerm) (er : SimError)
    (tr : List (ExtCall C R))
    (h : termStep env sim nm cc n t = (.error er, tr)) :
    ∃ e, er = SimError.lib e ∧ ∃ tr' ev, tr = tr' ++ [ev] ∧ ev.errOf = some e ∧
      ∀ ev' ∈ tr', ev'.errOf = none := by
  rcases termStep_shape env sim nm cc n t with
    ⟨e, h1, h5⟩ | ⟨m, h1, hs, h5⟩ | ⟨m, e, h1, hs, h2, h5⟩ |
    ⟨m, noisy, e, h1, hs, h2, h3, h5⟩ | ⟨m, noisy, r, e, h1, hs, h2, h3, h4, h5⟩ |
    ⟨m, noisy, r, rho, h1, hs, h2, h3, h4, h5⟩ <;>
  rw [h5] at h <;>
  simp only [Prod.mk.injEq, Except.ok.injEq, Except.error.injEq] at h
  · exact ⟨e, h.1.symm, [], _, h.2.symm, by simp [ExtCall.errOf], by simp⟩
  · exact absurd h.1 (fun hh => Except.noConfusion hh)
  · exact ⟨e, h.1.symm, [.get_sparse_operator t n (.ok m)], _, h.2.symm,
      by simp [ExtCall.errOf], by simp [ExtCall.errOf]⟩
  · exact ⟨e, h.1.symm, [.get_sparse_operator t n (.ok m), .with_noise cc nm (.ok noisy)], _,
      h.2.symm, by simp [ExtCall.errOf], by simp [ExtCall.errOf]⟩
  · exact ⟨e, h.1.symm, [.get_sparse_operator t n (.ok m), .with_noise cc nm (.ok noisy),
      .simulate ⟨noisy, none, .DEFAULT, none⟩ (.ok r)], _, h.2.symm,
      by simp [ExtCall.errOf], by simp [ExtCall.errOf]⟩
  · exact absurd h.1 (fun hh => Except.noConfusion hh)

/-- A term-loop iteration never calls `export_to_cirq`. -/
theorem termStep_no_export {C R : Type} (env : CirqEnv C R) (sim : CirqBasedSimulator C R)
    (nm : NoiseModel) (cc : C) (n : Nat) (t : PauliTerm) :
    ∀ ev ∈ (termStep env sim nm cc n t).2, ev.isExport = false := by
  rcases termStep_shape env sim nm cc n t with
    ⟨e, h1, h5⟩ | ⟨m, h1, hs, h5⟩ | ⟨m, e, h1, hs, h2, h5⟩ |
    ⟨m, noisy, e, h1, hs, h2, h3, h5⟩ | ⟨m, noisy, r, e, h1, hs, h2, h3, h4, h5⟩ |
    ⟨m, noisy, r, rho, h1, hs, h2, h3, h4, h5⟩ <;>
  rw [h5] <;> simp [ExtCall.isExport]

/-- Every `simulate` call made by a term-loop iteration uses the Python
default keyword arguments (no param resolver, default qubit order, no initial
state) and runs the noise-wrapped circuit produced by `with_noise` on the
converted circuit, which was called (successfully) in the same iteration. -/
theorem termStep_simulate_mem {C R : Type} (env : CirqEnv C R) (sim : CirqBasedSimulator C R)
    (nm : NoiseModel) (cc : C) (n : Nat) (t : PauliTerm) :
    ∀ args out, ExtCall.simulate args out ∈ (termStep env sim nm cc n t).2 →
      args.param_resolver = none ∧ args.qubit_order = QubitOrder.DEFAULT ∧
      args.initial_state = none ∧ env.with_noise cc nm = .ok args.program ∧
      ExtCall.with_noise cc nm (.ok args.program) ∈ (termStep env sim nm cc n t).2 := by
  rcases termStep_shape env sim nm cc n t with
    ⟨e, h1, h5⟩ | ⟨m, h1, hs, h5⟩ | ⟨m, e, h1, hs, h2, h5⟩ |
    ⟨m, noisy, e, h1, hs, h2, h3, h5⟩ | ⟨m, noisy, r, e, h1, hs, h2, h3, h4, h5⟩ |
    ⟨m, noisy, r, rho, h1, hs, h2, h3, h4, h5⟩ <;>
  rw [h5] <;> intro args out hmem <;> simp at hmem <;>
  rcases hmem with ⟨rfl, -⟩ <;> exact ⟨rfl, rfl, rfl, h2, by simp⟩

/-- Every `density_matrix_of` call made by a term-loop iteration is applied to
the output of a successful `simulate` call recorded in the same iteration. -/
theorem termStep_densmat_mem {C R : Type} (env : CirqEnv C R) (sim : CirqBasedSimulator C R)
    (nm : NoiseModel) (cc : C) (n : Nat) (t : PauliTerm) :
    ∀ r out, ExtCall.density_matrix_of r out ∈ (termStep env sim nm cc n t).2 →
      ∃ args, ExtCall.simulate args (.ok r) ∈ (termStep env sim nm cc n t).2 ∧
        sim.simulator args = .ok r := by
  rcases termStep_shape env sim nm cc n t with
    ⟨e, h1, h5⟩ | ⟨m, h1, hs, h5⟩ | ⟨m, e, h1, hs, h2, h5⟩ |
    ⟨m, noisy, e, h1, hs, h2, h3, h5⟩ | ⟨m, noisy, r, e, h1, hs, h2, h3, h4, h5⟩ |
    ⟨m, noisy, r, rho, h1, hs, h2, h3, h4, h5⟩ <;>
  rw [h5] <;> intro r' out hmem <;> simp at hmem <;>
  rcases hmem with ⟨rfl, -⟩ <;> exact ⟨⟨noisy, none, .DEFAULT, none⟩, by simp, h3⟩

/-- The loop's value component is the in-order list of per-term values. -/
theorem termLoop_fst {C R : Type} (env : CirqEnv C R) (sim : CirqBasedSimulator C R)
    (nm : NoiseModel) (cc : C) (n : Nat) (ts : List PauliTerm) :
    (termLoop env sim nm cc n ts).1 = termValues env sim nm cc n ts := by
  induction ts with
  | nil => rfl
  | cons t ts ih =>
    simp only [termLoop, termValues, termValue]
    rcases h1 : termStep env sim nm cc n t with ⟨res, trs⟩
    rcases res with e | v
    · rfl
    · rcases h2 : termLoop env sim nm cc n ts with ⟨res2, tr2⟩
      simp only []
      rw [← ih, h2]

/-- The trace of a successful term loop contains no failing call. -/
theorem termLoop_ok_trace {C R : Type} (env : CirqEnv C R) (sim : CirqBasedSimulator C R)
    (nm : NoiseModel) (cc : C) (n : Nat) :
    ∀ ts vs tr, termLoop env sim nm cc n ts = (.ok vs, tr) →
      ∀ ev ∈ tr, ev.errOf = none := by
  intro ts
  induction ts with
  | nil =>
    intro vs tr h
    simp only [termLoop, Prod.mk.injEq] at h
    rw [← h.2]; simp
  | cons t ts ih =>
    intro vs tr h
    simp only [termLoop] at h
    split at h
    · simp at h
    · rename_i v trs heq
      rcases heq2 : termLoop env sim nm cc n ts with ⟨res2, tr2⟩
      rw [heq2] at h
      rcases res2 with e | vs2
      · simp [Except.map] at h
      · simp only [Except.map, Prod.mk.injEq] at h
        rw [← h.2]
        intro ev hev
        rcases List.mem_append.mp hev with hin | hin
        · exact termStep_ok_trace env sim nm cc n t v trs heq ev hin
        · exact ih vs2 tr2 heq2 ev hin

/-- A failing term loop fails with a propagated library error: the trace ends
with the failing call carrying exactly that error, and every earlier call of
the loop succeeded. -/
theorem termLoop_err_shape {C R : Type} (env : CirqEnv C R) (sim : CirqBasedSimulator C R)
    (nm : NoiseModel) (cc : C) (n : Nat) :
    ∀ ts er tr, termLoop env sim nm cc n ts = (.error er, tr) →
      ∃ e, er = SimError.lib e ∧ ∃ tr' ev, tr = tr' ++ [ev] ∧ ev.errOf = some e ∧
        ∀ ev' ∈ tr', ev'.errOf = none := by
  intro ts
  induction ts with
  | nil => intro er tr h; simp [termLoop] at h
  | cons t ts ih =>
    intro er tr h
    simp only [termLoop] at h
    split at h
    · rename_i e trs heq
      simp only [Prod.mk.injEq, Except.error.injEq] at h
      rcases termStep_err_shape env sim nm cc n t e trs heq with
        ⟨e', he', tr', ev, htr, hev, hall⟩
      exact ⟨e', h.1 ▸ he', tr', ev, h.2 ▸ htr, hev, hall⟩
    · rename_i v trs heq
      rcases heq2 : termLoop env sim nm cc n ts with ⟨res2, tr2⟩
      rw [heq2] at h
      rcases res2 with e | vs2
      · simp only [Except.map, Prod.mk.injEq, Except.error.injEq] at h
        rcases ih e tr2 heq2 with ⟨e', he', tr', ev, htr, hev, hall⟩
        refine ⟨e', h.1 ▸ he', trs ++ tr', ev, ?_, hev, ?_⟩
        · rw [← h.2, htr, List.append_assoc]
        · intro ev' hev'
          rcases List.mem_append.mp hev' with hin | hin
          · exact termStep_ok_trace env sim nm cc n t v trs heq ev' hin
          · exact hall ev' hin
      · simp [Except.map] at h

/-- Every event of the loop trace belongs to the step trace of one of the
processed terms, and that whole step trace is inside the loop trace. -/
theorem termLoop_trace_mem {C R : Type} (env : CirqEnv C R) (sim : CirqBasedSimulator C R)
    (nm : NoiseModel) (cc : C) (n : Nat) :
    ∀ ts ev, ev ∈ (termLoop env sim nm cc n ts).2 →
      ∃ t, t ∈ ts ∧ ev ∈ (termStep env sim nm cc n t).2 ∧
        ∀ ev' ∈ (termStep env sim nm cc n t).2, ev' ∈ (termLoop env sim nm cc n ts).2 := by
  intro ts
  induction ts with
  | nil => intro ev hev; simp [termLoop] at hev
  | cons t ts ih =>
    intro ev hev
    rcases h1 : termStep env sim nm cc n t with ⟨res, trs⟩
    rcases res with e | v
    · have hl : (termLoop env sim nm cc n (t :: ts)).2 = trs := by
        simp [termLoop, h1]
      rw [hl] at hev
      exact ⟨t, List.mem_cons_self t ts, by rw [h1]; exact hev,
        fun ev' hev' => by rw [hl]; rw [h1] at hev'; exact hev'⟩
    · rcases h2 : termLoop env sim nm cc n ts with ⟨res2, tr2⟩
      have hl : (termLoop env sim nm cc n (t :: ts)).2 = trs ++ tr2 := by
        simp [termLoop, h1, h2]
      rw [hl] at hev
      rcases List.mem_append.mp hev with hin | hin
      · exact ⟨t, List.mem_cons_self t ts, by rw [h1]; exact hin,
          fun ev' hev' => by
            rw [hl]; rw [h1] at hev'; exact List.mem_append_left tr2 hev'⟩
      · have hin2 : ev ∈ (termLoop env sim nm cc n ts).2 := by rw [h2]; exact hin
        rcases ih ev hin2 with ⟨t', ht', hmem, hsub⟩
        exact ⟨t', List.mem_cons_of_mem t ht', hmem,
          fun ev' hev' => by
            rw [hl]
            have := hsub ev' hev'
            rw [h2] at this
            exact List.mem_append_right trs this⟩

/-- The term loop never calls `export_to_cirq`. -/
theorem termLoop_no_export {C R : Type} (env : CirqEnv C R) (sim : CirqBasedSimulator C R)
    (nm : NoiseModel) (cc : C) (n : Nat) (ts : List PauliTerm) :
    ∀ ev ∈ (termLoop env sim nm cc n ts).2, ev.isExport = false := by
  intro ev hev
  rcases termLoop_trace_mem env sim nm cc n ts ev hev with ⟨t, _, hmem, _⟩
  exact termStep_no_export env sim nm cc n t ev hmem

/-- Every `simulate` call of the term loop uses the default keyword arguments
and runs the noise-wrapped converted circuit; the corresponding successful
`with_noise` call is in the loop trace. -/
theorem termLoop_simulate_mem {C R : Type} (env : CirqEnv C R) (sim : CirqBasedSimulator C R)
    (nm : NoiseModel) (cc : C) (n : Nat) (ts : List PauliTerm) :
    ∀ args out, ExtCall.simulate args out ∈ (termLoop env sim nm cc n ts).2 →
      args.param_resolver = none ∧ args.qubit_order = QubitOrder.DEFAULT ∧
      args.initial_state = none ∧ env.with_noise cc nm = .ok args.program ∧
      ExtCall.with_noise cc nm (.ok args.program) ∈ (termLoop env sim nm cc n ts).2 := by
  intro args out hev
  rcases termLoop_trace_mem env sim nm cc n ts _ hev with ⟨t, _, hmem, hsub⟩
  rcases termStep_simulate_mem env sim nm cc n t args out hmem with ⟨h1, h2, h3, h4, h5⟩
  exact ⟨h1, h2, h3, h4, hsub _ h5⟩

/-- Every `density_matrix_of` call of the term loop is applied to the output
of a successful `simulate` call recorded in the loop trace. -/
theorem termLoop_densmat_mem {C R : Type} (env : CirqEnv C R) (sim : CirqBasedSimulator C R)
    (nm : NoiseModel) (cc : C) (n : Nat) (ts : List PauliTerm) :
    ∀ r out, ExtCall.density_matrix_of r out ∈ (termLoop env sim nm cc n ts).2 →
      ∃ args, ExtCall.simulate args (.ok r) ∈ (termLoop env sim nm cc n ts).2 ∧
        sim.simulator args = .ok r := by
  intro r out hev
  rcases termLoop_trace_mem env sim nm cc n ts _ hev with ⟨t, _, hmem, hsub⟩
  rcases termStep_densmat_mem env sim nm cc n t r out hmem with ⟨args, hmem2, hok⟩
  exact ⟨args, hsub _ hmem2, hok⟩

/-- A successful list of per-term values has one value per term, in order. -/
theorem termValues_ok {C R : Type} (env : CirqEnv C R) (sim : CirqBasedSimulator C R)
    (nm : NoiseModel) (cc : C) (n : Nat) :
    ∀ ts vs, termValues env sim nm cc n ts = .ok vs →
      vs.length = ts.length ∧
      ∀ j, j < ts.length → termValue env sim nm cc n (ts.getD j 0) = .ok (vs.getD j 0) := by
  intro ts
  induction ts with
  | nil =>
    intro vs h
    simp only [termValues, Except.ok.injEq] at h
    rw [← h]
    exact ⟨rfl, fun j hj => absurd hj (Nat.not_lt_zero j)⟩
  | cons t ts ih =>
    intro vs h
    simp only [termValues] at h
    rcases h1 : termValue env sim nm cc n t with e | v
    · rw [h1] at h; simp at h
    · rw [h1] at h
      rcases h2 : termValues env sim nm cc n ts with e | vs2
      · rw [h2] at h; simp [Except.map] at h
      · rw [h2] at h
        simp only [Except.map, Except.ok.injEq] at h
        rcases ih vs2 h2 with ⟨hlen, hget⟩
        refine ⟨by rw [← h]; simp [hlen], ?_⟩
        intro j hj
        rcases j with _ | j
        · rw [← h]; simpa using h1
        · rw [← h]
          simpa using hget j (Nat.lt_of_succ_lt_succ hj)

/-- Case analysis on `get_exact_noisy_expectation_values`: missing noise
model, failing conversion, or conversion followed by the term loop. -/
theorem noisy_shape {C R : Type} (env : CirqEnv C R) (sim : CirqBasedSimulator C R)
    (circuit : Circuit) (op : PauliRepresentation) :
    (sim.noise_model = none ∧
      get_exact_noisy_expectation_values env sim circuit op =
        (.error .runtimeErrorMissingNoiseModel, []))
  ∨ (∃ nm e, sim.noise_model = some nm ∧ env.export_to_cirq circuit = .error e ∧
      get_exact_noisy_expectation_values env sim circuit op =
        (.error (.lib e), [.export_to_cirq circuit (.error e)]))
  ∨ (∃ nm cc, sim.noise_model = some nm ∧ env.export_to_cirq circuit = .ok cc ∧
      get_exact_noisy_expectation_values env sim circuit op =
        ((termLoop env sim nm cc circuit.n_qubits op.terms).1.map
            (fun vs => expectation_values_to_real ⟨vs⟩),
         .export_to_cirq circuit (.ok cc) ::
           (termLoop env sim nm cc circuit.n_qubits op.terms).2)) := by
  rcases hn : sim.noise_model with _ | nm
  · exact Or.inl ⟨rfl, by simp [get_exact_noisy_expectation_values, hn]⟩
  · rcases he : env.export_to_cirq circuit with e | cc
    · exact Or.inr (Or.inl ⟨nm, e, rfl, rfl,
        by simp [get_exact_noisy_expectation_values, hn, he]⟩)
    · refine Or.inr (Or.inr ⟨nm, cc, rfl, rfl, ?_⟩)
      rcases h2 : termLoop env sim nm cc circuit.n_qubits op.terms with ⟨res, tr⟩
      simp [get_exact_noisy_expectation_values, hn, he, h2]

/-- Case analysis on `get_wavefunction_from_native_circuit`: failing
conversion, failing simulation, failing state-vector extraction, or success. -/
theorem wf_shape {C R : Type} (env : CirqEnv C R) (sim : CirqBasedSimulator C R)
    (circuit : Circuit) (initial_state : List CC) :
    (∃ e, env.export_to_cirq (addIdentityGates circuit) = .error e ∧
      get_wavefunction_from_native_circuit env sim circuit initial_state =
        (.error (.lib e), [.export_to_cirq (addIdentityGates circuit) (.error e)]))
  ∨ (∃ cc e, env.export_to_cirq (addIdentityGates circuit) = .ok cc ∧
      sim.simulator ⟨cc, sim.param_resolver, sim.qubit_order, some initial_state⟩ = .error e ∧
      get_wavefunction_from_native_circuit env sim circuit initial_state =
        (.error (.lib e),
         [.export_to_cirq (addIdentityGates circuit) (.ok cc),
          .simulate ⟨cc, sim.param_resolver, sim.qubit_order, some initial_state⟩ (.error e)]))
  ∨ (∃ cc r e, env.export_to_cirq (addIdentityGates circuit) = .ok cc ∧
      sim.simulator ⟨cc, sim.param_resolver, sim.qubit_order, some initial_state⟩ = .ok r ∧
      env.final_state_vector r = .error e ∧
      get_wavefunction_from_native_circuit env sim circuit initial_state =
        (.error (.lib e),
         [.export_to_cirq (addIdentityGates circuit) (.ok cc),
          .simulate ⟨cc, sim.param_resolver, sim.qubit_order, some initial_state⟩ (.ok r),
          .final_state_vector r (.error e)]))
  ∨ (∃ cc r wf, env.export_to_cirq (addIdentityGates circuit) = .ok cc ∧
      sim.simulator ⟨cc, sim.param_resolver, sim.qubit_order, some initial_state⟩ = .ok r ∧
      env.final_state_vector r = .ok wf ∧
      get_wavefunction_from_native_circuit env sim circuit initial_state =
        (.ok wf,
         [.export_to_cirq (addIdentityGates circuit) (.ok cc),
          .simulate ⟨cc, sim.param_resolver, sim.qubit_order, some initial_state⟩ (.ok r),
          .final_state_vector r (.ok wf)])) := by
  rcases h1 : env.export_to_cirq (addIdentityGates circuit) with e | cc
  · exact Or.inl ⟨e, rfl, by simp [get_wavefunction_from_native_circuit, h1]⟩
  · rcases h2 : sim.simulator ⟨cc, sim.param_resolver, sim.qubit_order, some initial_state⟩
      with e | r
    · exact Or.inr (Or.inl ⟨cc, e, rfl, h2,
        by simp [get_wavefunction_from_native_circuit, h1, h2]⟩)
    · rcases h3 : env.final_state_vector r with e | wf
      · exact Or.inr (Or.inr (Or.inl ⟨cc, r, e, rfl, h2, h3,
          by simp [get_wavefunction_from_native_circuit, h1, h2, h3]⟩))
      · exact Or.inr (Or.inr (Or.inr ⟨cc, r, wf, rfl, h2, h3,
          by simp [get_wavefunction_from_native_circuit, h1, h2, h3]⟩))

/-- Folding identity appends over a list extends the operation list and takes
the running maximum of the qubit bounds. -/
theorem foldl_addI_ops (l : List Nat) :
    ∀ c : Circuit, (l.foldl (fun acc i => acc.addOp (GateOp.I i)) c).ops =
      c.ops ++ l.map GateOp.I := by
  induction l with
  | nil => intro c; simp
  | cons i l ih =>
    intro c
    rw [List.foldl_cons, ih (c.addOp (GateOp.I i))]
    simp only [Circuit.addOp]
    rw [List.append_assoc]
    rfl

/-- Folding identity appends keeps `n_qubits` when every index is in range. -/
theorem foldl_addI_n_qubits (l : List Nat) :
    ∀ c : Circuit, (∀ i ∈ l, i < c.n_qubits) →
      (l.foldl (fun acc i => acc.addOp (GateOp.I i)) c).n_qubits = c.n_qubits := by
  induction l with
  | nil => intro c _; rfl
  | cons i l ih =>
    intro c hall
    simp only [List.foldl_cons]
    have hb : (c.addOp (GateOp.I i)).n_qubits = c.n_qubits := by
      simp only [Circuit.addOp, GateOp.qubit]
      exact Nat.max_eq_left (hall i (List.mem_cons_self i l))
    have := ih (c.addOp (GateOp.I i))
      (fun j hj => by rw [hb]; exact hall j (List.mem_cons_of_mem i hj))
    rw [this, hb]

/-- The identity-padding loop appends `I(0), …, I(n_qubits-1)` to the
operation list and leaves `n_qubits` unchanged. -/
theorem addIdentityGates_spec (c : Circuit) :
    (addIdentityGates c).ops = c.ops ++ (List.range c.n_qubits).map GateOp.I ∧
    (addIdentityGates c).n_qubits = c.n_qubits := by
  constructor
  · exact foldl_addI_ops (List.range c.n_qubits) c
  · exact foldl_addI_n_qubits (List.range c.n_qubits) c
      (fun i hi => List.mem_range.mp hi)

/-- C1: `get_exact_noisy_expectation_values` raises `RuntimeError` exactly
when the adapter's `noise_model` is `None`, and when it raises it has made no
external call at all (no circuit conversion, no simulator invocation), so all
simulator state is untouched; this is the adapter's single precondition
check. -/
theorem noisy_raises_iff_noise_model_missing {C R : Type} (env : CirqEnv C R)
    (sim : CirqBasedSimulator C R) (circuit : Circuit) (op : PauliRepresentation) :
    ((get_exact_noisy_expectation_values env sim circuit op).1 =
        .error .runtimeErrorMissingNoiseModel ↔ sim.noise_model = none) ∧
    (sim.noise_model = none →
      get_exact_noisy_expectation_values env sim circuit op =
        (.error .runtimeErrorMissingNoiseModel, [])) := by
  rcases noisy_shape env sim circuit op with
    ⟨hn, hres⟩ | ⟨nm, e, hn, he, hres⟩ | ⟨nm, cc, hn, he, hres⟩
  · exact ⟨⟨fun _ => hn, fun _ => by rw [hres]⟩, fun _ => hres⟩
  · refine ⟨⟨fun h => ?_, fun h => by rw [hn] at h; exact Option.noConfusion h⟩,
      fun h => by rw [hn] at h; exact Option.noConfusion h⟩
    rw [hres] at h
    exact absurd h (by simp)
  · refine ⟨⟨fun h => ?_, fun h => by rw [hn] at h; exact Option.noConfusion h⟩,
      fun h => by rw [hn] at h; exact Option.noConfusion h⟩
    rw [hres] at h
    rcases hres2 : (termLoop env sim nm cc circuit.n_qubits op.terms).1 with er | vs
    · rcases hl : termLoop env sim nm cc circuit.n_qubits op.terms with ⟨res, tr⟩
      have : res = .error er := by rw [hl] at hres2; exact hres2
      rcases termLoop_err_shape env sim nm cc circuit.n_qubits op.terms er tr
        (by rw [hl, this]) with ⟨e', he', -⟩
      rw [hres2] at h
      simp only [Except.map] at h
      rw [he'] at h
      exact absurd h (by simp)
    · rw [hres2] at h
      simp [Except.map] at h

/-- Witness for C1 at a concrete adapter with no noise model. -/
theorem noisy_raises_iff_noise_model_missing_witness :
    get_exact_noisy_expectation_values exEnv exSimNoNoise exCircuit exOp =
      (.error .runtimeErrorMissingNoiseModel, []) :=
  (noisy_raises_iff_noise_model_missing exEnv exSimNoNoise exCircuit exOp).2 (by rfl)

/-- C2 counterexample: with the adapter's `param_resolver` set (to `some 7`),
the noisy expectation-value path still invokes the wrapped simulator's
`simulate` without passing it (the call's `param_resolver` keyword is the
Python default `None`), refuting the claim that every `simulate` invocation
receives the adapter's `param_resolver`. -/
theorem noisy_simulate_ignores_param_resolver :
    exSim.param_resolver = some 7 ∧
    ∃ args out, ExtCall.simulate args out ∈
        (get_exact_noisy_expectation_values exEnv exSim exCircuit exOp).2 ∧
      args.param_resolver ≠ exSim.param_resolver := by
  refine ⟨rfl, ⟨23, none, .DEFAULT, none⟩, .ok 123, ?_, by decide⟩
  decide

/-- C2 amended: the stored `param_resolver` is forwarded to every `simulate`
call of the wavefunction path, while every `simulate` call of the noisy
expectation-value path uses the default `param_resolver=None` (it is not
forwarded there). -/
theorem param_resolver_forwarded_only_in_wavefunction_path {C R : Type}
    (env : CirqEnv C R) (sim : CirqBasedSimulator C R) (circuit : Circuit)
    (initial_state : List CC) (op : PauliRepresentation) :
    (∀ args out, ExtCall.simulate args out ∈
        (get_wavefunction_from_native_circuit env sim circuit initial_state).2 →
      args.param_resolver = sim.param_resolver ∧ args.qubit_order = sim.qubit_order) ∧
    (∀ args out, ExtCall.simulate args out ∈
        (get_exact_noisy_expectation_values env sim circuit op).2 →
      args.param_resolver = none) := by
  constructor
  · intro args out hmem
    rcases wf_shape env sim circuit initial_state with
      ⟨e, h1, hres⟩ | ⟨cc, e, h1, h2, hres⟩ | ⟨cc, r, e, h1, h2, h3, hres⟩ |
      ⟨cc, r, wf, h1, h2, h3, hres⟩ <;>
    rw [hres] at hmem <;> simp at hmem <;> rcases hmem with ⟨rfl, -⟩ <;> exact ⟨rfl, rfl⟩
  · intro args out hmem
    rcases noisy_shape env sim circuit op with
      ⟨hn, hres⟩ | ⟨nm, e, hn, he, hres⟩ | ⟨nm, cc, hn, he, hres⟩ <;>
    rw [hres] at hmem
    · simp at hmem
    · simp at hmem
    · rcases List.mem_cons.mp hmem with heq | hin
      · exact absurd heq (by simp)
      · exact (termLoop_simulate_mem env sim nm cc circuit.n_qubits op.terms
          args out hin).1

/-- Witness for the amended C2 at concrete inputs: the wavefunction path's
`simulate` call carries `some 7`, the noisy path's carries `none`. -/
theorem param_resolver_forwarded_only_in_wavefunction_path_witness :
    ((⟨2, some 7, QubitOrder.DEFAULT, some []⟩ : SimulateArgs Nat).param_resolver =
        exSim.param_resolver ∧
      (⟨2, some 7, QubitOrder.DEFAULT, some []⟩ : SimulateArgs Nat).qubit_order =
        exSim.qubit_order) ∧
    (⟨23, none, QubitOrder.DEFAULT, none⟩ : SimulateArgs Nat).param_resolver = none :=
  ⟨(param_resolver_forwarded_only_in_wavefunction_path exEnv exSim exCircuit [] exOp).1
      ⟨2, some 7, .DEFAULT, some []⟩ (.ok 102) (by decide),
   (param_resolver_forwarded_only_in_wavefunction_path exEnv exSim exCircuit [] exOp).2
      ⟨23, none, .DEFAULT, none⟩ (.ok 123) (by decide)⟩

/-- C3: each path converts the generic circuit exactly once via
`export_to_cirq`, as the very first external call, before any simulation (the
noisy path's conversion happens whenever the noise-model precondition holds;
when it fails, C1 shows no call at all is made). -/
theorem convert_once_before_any_simulation {C R : Type} (env : CirqEnv C R)
    (sim : CirqBasedSimulator C R) (circuit : Circuit) (initial_state : List CC)
    (op : PauliRepresentation) (nm : NoiseModel) :
    (∃ out rest,
      (get_wavefunction_from_native_circuit env sim circuit initial_state).2 =
        ExtCall.export_to_cirq (addIdentityGates circuit) out :: rest ∧
      ∀ ev ∈ rest, ev.isExport = false) ∧
    (sim.noise_model = some nm →
      ∃ out rest,
        (get_exact_noisy_expectation_values env sim circuit op).2 =
          ExtCall.export_to_cirq circuit out :: rest ∧
        ∀ ev ∈ rest, ev.isExport = false) := by
  constructor
  · rcases wf_shape env sim circuit initial_state with
      ⟨e, h1, hres⟩ | ⟨cc, e, h1, h2, hres⟩ | ⟨cc, r, e, h1, h2, h3, hres⟩ |
      ⟨cc, r, wf, h1, h2, h3, hres⟩ <;>
    rw [hres] <;> exact ⟨_, _, rfl, by simp [ExtCall.isExport]⟩
  · intro hn
    rcases noisy_shape env sim circuit op with
      ⟨hn2, hres⟩ | ⟨nm2, e, hn2, he, hres⟩ | ⟨nm2, cc, hn2, he, hres⟩
    · rw [hn] at hn2; exact Option.noConfusion hn2
    · rw [hres]; exact ⟨_, _, rfl, by simp⟩
    · rw [hres]
      exact ⟨_, _, rfl, termLoop_no_export env sim nm2 cc circuit.n_qubits op.terms⟩

/-- Witness for C3 at concrete inputs. -/
theorem convert_once_before_any_simulation_witness :
    ∃ out rest,
      (get_exact_noisy_expectation_values exEnv exSim exCircuit exOp).2 =
        ExtCall.export_to_cirq exCircuit out :: rest ∧
      ∀ ev ∈ rest, ev.isExport = false :=
  (convert_once_before_any_simulation exEnv exSim exCircuit [] exOp 2).2 (by rfl)

/-- C4: the adapter owns no simulation: every wavefunction it returns is the
`final_state_vector` translation of the output of a `simulate` call on the
converted circuit with the adapter's stored parameters, and every density
matrix the noisy path consumes is extracted from the output of a recorded
`simulate` call; the adapter only translates that black-box call's inputs and
outputs. -/
theorem results_delegate_to_simulate {C R : Type} (env : CirqEnv C R)
    (sim : CirqBasedSimulator C R) (circuit : Circuit) (initial_state : List CC)
    (op : PauliRepresentation) :
    (∀ wf, (get_wavefunction_from_native_circuit env sim circuit initial_state).1 =
        .ok wf →
      ∃ cc r, env.export_to_cirq (addIdentityGates circuit) = .ok cc ∧
        sim.simulator ⟨cc, sim.param_resolver, sim.qubit_order, some initial_state⟩ =
          .ok r ∧
        ExtCall.simulate ⟨cc, sim.param_resolver, sim.qubit_order, some initial_state⟩
            (.ok r) ∈
          (get_wavefunction_from_native_circuit env sim circuit initial_state).2 ∧
        env.final_state_vector r = .ok wf) ∧
    (∀ r out, ExtCall.density_matrix_of r out ∈
        (get_exact_noisy_expectation_values env sim circuit op).2 →
      ∃ args, ExtCall.simulate args (.ok r) ∈
          (get_exact_noisy_expectation_values env sim circuit op).2 ∧
        sim.simulator args = .ok r) := by
  constructor
  · intro wf hok
    rcases wf_shape env sim circuit initial_state with
      ⟨e, h1, hres⟩ | ⟨cc, e, h1, h2, hres⟩ | ⟨cc, r, e, h1, h2, h3, hres⟩ |
      ⟨cc, r, wf2, h1, h2, h3, hres⟩ <;> rw [hres] at hok ⊢ <;> simp at hok
    rcases hok with rfl
    exact ⟨cc, r, h1, h2, by simp, h3⟩
  · intro r out hmem
    rcases noisy_shape env sim circuit op with
      ⟨hn, hres⟩ | ⟨nm, e, hn, he, hres⟩ | ⟨nm, cc, hn, he, hres⟩ <;>
    rw [hres] at hmem ⊢
    · simp at hmem
    · simp at hmem
    · rcases List.mem_cons.mp hmem with heq | hin
      · exact absurd heq (by simp)
      · rcases termLoop_densmat_mem env sim nm cc circuit.n_qubits op.terms r out hin
          with ⟨args, hmem2, hok⟩
        exact ⟨args, List.mem_cons_of_mem _ hmem2, hok⟩

/-- Witness for C4 at concrete inputs. -/
theorem results_delegate_to_simulate_witness :
    ∃ cc r, exEnv.export_to_cirq (addIdentityGates exCircuit) = .ok cc ∧
      exSim.simulator ⟨cc, exSim.param_resolver, exSim.qubit_order, some []⟩ = .ok r ∧
      ExtCall.simulate ⟨cc, exSim.param_resolver, exSim.qubit_order, some []⟩ (.ok r) ∈
        (get_wavefunction_from_native_circuit exEnv exSim exCircuit []).2 ∧
      exEnv.final_state_vector r = .ok [⟨102, 0⟩] :=
  (results_delegate_to_simulate exEnv exSim exCircuit [] exOp).1 [⟨102, 0⟩] (by decide)

/-- C5: backend results are translated back unchanged: the wavefunction path
returns exactly the `final_state_vector` field of the backend result, and a
noisy term's density matrix is exactly the `density_matrix_of()` output,
used without further transformation in the real part of its trace against the
term's sparse array. -/
theorem backend_results_returned_unchanged {C R : Type} (env : CirqEnv C R)
    (sim : CirqBasedSimulator C R) (circuit : Circuit) (initial_state : List CC)
    (nm : NoiseModel) (cc0 : C) (n : Nat) (t : PauliTerm) :
    (∀ cc r wf, env.export_to_cirq (addIdentityGates circuit) = .ok cc →
      sim.simulator ⟨cc, sim.param_resolver, sim.qubit_order, some initial_state⟩ =
        .ok r →
      env.final_state_vector r = .ok wf →
      (get_wavefunction_from_native_circuit env sim circuit initial_state).1 =
        .ok wf) ∧
    (∀ m noisy r rho, env.get_sparse_operator t n = .ok m → ¬ npSize m = 1 →
      env.with_noise cc0 nm = .ok noisy →
      sim.simulator ⟨noisy, none, .DEFAULT, none⟩ = .ok r →
      env.density_matrix_of r = .ok rho →
      termValue env sim nm cc0 n t = .ok ⟨(cTrace (matMul rho m)).re, 0⟩) := by
  constructor
  · intro cc r wf h1 h2 h3
    simp [get_wavefunction_from_native_circuit, h1, h2, h3]
  · intro m noisy r rho h1 hs h2 h3 h4
    simp [termValue, termStep, h1, hs, h2, h3, h4]

/-- Witness for C5 at concrete inputs. -/
theorem backend_results_returned_unchanged_witness :
    (get_wavefunction_from_native_circuit exEnv exSim exCircuit []).1 =
      .ok [⟨102, 0⟩] ∧
    termValue exEnv exSim 2 2 2 1 = .ok ⟨1, 0⟩ := by
  constructor
  · exact (backend_results_returned_unchanged exEnv exSim exCircuit [] 2 2 2 1).1
      2 102 [⟨102, 0⟩] (by decide) (by decide) (by decide)
  · rw [(backend_results_returned_unchanged exEnv exSim exCircuit [] 2 2 2 1).2
      [[⟨1, 0⟩, 0], [0, ⟨-1, 0⟩]] 23 123 [[⟨1, 0⟩, 0], [0, 0]]
      (by decide) (by decide) (by decide) (by decide) (by decide)]
    decide

/-- C6: for every operator term that is simulated, the noise model is applied
to the converted circuit by `with_noise` and the simulation runs exactly that
noise-wrapped circuit, so the error channels are present during simulation. -/
theorem noise_applied_before_simulation {C R : Type} (env : CirqEnv C R)
    (sim : CirqBasedSimulator C R) (circuit : Circuit) (op : PauliRepresentation)
    (nm : NoiseModel) (hn : sim.noise_model = some nm) :
    ∀ args out, ExtCall.simulate args out ∈
        (get_exact_noisy_expectation_values env sim circuit op).2 →
      ∃ cc, env.export_to_cirq circuit = .ok cc ∧
        env.with_noise cc nm = .ok args.program ∧
        ExtCall.with_noise cc nm (.ok args.program) ∈
          (get_exact_noisy_expectation_values env sim circuit op).2 := by
  intro args out hmem
  rcases noisy_shape env sim circuit op with
    ⟨hn2, hres⟩ | ⟨nm2, e, hn2, he, hres⟩ | ⟨nm2, cc, hn2, he, hres⟩
  · rw [hn] at hn2; exact Option.noConfusion hn2
  · rw [hres] at hmem; simp at hmem
  · obtain rfl : nm = nm2 := Option.some.inj (hn.symm.trans hn2)
    rw [hres] at hmem ⊢
    rcases List.mem_cons.mp hmem with heq | hin
    · exact absurd heq (by simp)
    · rcases termLoop_simulate_mem env sim nm cc circuit.n_qubits op.terms args out hin
        with ⟨-, -, -, h4, h5⟩
      exact ⟨cc, he, h4, List.mem_cons_of_mem _ h5⟩

/-- Witness for C6 at concrete inputs. -/
theorem noise_applied_before_simulation_witness :
    ∃ cc, exEnv.export_to_cirq exCircuit = .ok cc ∧
      exEnv.with_noise cc 2 = .ok 23 ∧
      ExtCall.with_noise cc 2 (.ok 23) ∈
        (get_exact_noisy_expectation_values exEnv exSim exCircuit exOp).2 := by
  rcases noise_applied_before_simulation exEnv exSim exCircuit exOp 2 (by rfl)
      ⟨23, none, .DEFAULT, none⟩ (.ok 123) (by decide) with ⟨cc, h1, h2, h3⟩
  have hcc : cc = 2 := by
    have := h1
    simp [exEnv] at this
    rw [← this]
    decide
  subst hcc
  have h23 : (⟨23, none, QubitOrder.DEFAULT, none⟩ : SimulateArgs Nat).program = 23 := rfl
  rw [h23] at h2 h3
  exact ⟨2, h1, h2, h3⟩

/-- C7: the adapter catches nothing: whenever an entry point finishes with a
library error, the trace shows every external call before the failing one
succeeded, the failing call is the last thing the adapter did, and its error
is returned unchanged; on success no external call failed; and the only
adapter-raised error is the missing-noise-model `RuntimeError` (the
wavefunction path never raises it). -/
theorem library_errors_propagate_unchanged {C R : Type} (env : CirqEnv C R)
    (sim : CirqBasedSimulator C R) (circuit : Circuit) (initial_state : List CC)
    (op : PauliRepresentation) :
    (∀ e, (get_wavefunction_from_native_circuit env sim circuit initial_state).1 =
        .error (.lib e) →
      ∃ tr' ev, (get_wavefunction_from_native_circuit env sim circuit initial_state).2 =
          tr' ++ [ev] ∧ ev.errOf = some e ∧ ∀ ev' ∈ tr', ev'.errOf = none) ∧
    ((get_wavefunction_from_native_circuit env sim circuit initial_state).1 ≠
        .error .runtimeErrorMissingNoiseModel) ∧
    (∀ e, (get_exact_noisy_expectation_values env sim circuit op).1 = .error (.lib e) →
      ∃ tr' ev, (get_exact_noisy_expectation_values env sim circuit op).2 =
          tr' ++ [ev] ∧ ev.errOf = some e ∧ ∀ ev' ∈ tr', ev'.errOf = none) ∧
    (∀ wf, (get_wavefunction_from_native_circuit env sim circuit initial_state).1 =
        .ok wf →
      ∀ ev ∈ (get_wavefunction_from_native_circuit env sim circuit initial_state).2,
        ev.errOf = none) ∧
    (∀ evs, (get_exact_noisy_expectation_values env sim circuit op).1 = .ok evs →
      ∀ ev ∈ (get_exact_noisy_expectation_values env sim circuit op).2,
        ev.errOf = none) := by
  refine ⟨?_, ?_, ?_, ?_, ?_⟩
  · intro e h
    rcases wf_shape env sim circuit initial_state with
      ⟨e2, h1, hres⟩ | ⟨cc, e2, h1, h2, hres⟩ | ⟨cc, r, e2, h1, h2, h3, hres⟩ |
      ⟨cc, r, wf, h1, h2, h3, hres⟩ <;> rw [hres] at h ⊢ <;> simp at h ⊢ <;> subst h
    · exact ⟨[], _, rfl, by simp [ExtCall.errOf], by simp⟩
    · exact ⟨[.export_to_cirq (addIdentityGates circuit) (.ok cc)], _, rfl,
        by simp [ExtCall.errOf], by simp [ExtCall.errOf]⟩
    · exact ⟨[.export_to_cirq (addIdentityGates circuit) (.ok cc),
        .simulate ⟨cc, sim.param_resolver, sim.qubit_order, some initial_state⟩ (.ok r)],
        _, rfl, by simp [ExtCall.errOf], by simp [ExtCall.errOf]⟩
  · rcases wf_shape env sim circuit initial_state with
      ⟨e2, h1, hres⟩ | ⟨cc, e2, h1, h2, hres⟩ | ⟨cc, r, e2, h1, h2, h3, hres⟩ |
      ⟨cc, r, wf, h1, h2, h3, hres⟩ <;> rw [hres] <;> simp
  · intro e h
    rcases noisy_shape env sim circuit op with
      ⟨hn, hres⟩ | ⟨nm, e2, hn, he, hres⟩ | ⟨nm, cc, hn, he, hres⟩ <;> rw [hres] at h ⊢
    · simp at h
    · simp at h
      subst h
      exact ⟨[], _, rfl, by simp [ExtCall.errOf], by simp⟩
    · rcases hl : termLoop env sim nm cc circuit.n_qubits op.terms with ⟨res, tr⟩
      rw [hl] at h
      dsimp only at h ⊢
      rcases res with er | vs
      · simp only [Except.map, Except.error.injEq] at h
        rcases termLoop_err_shape env sim nm cc circuit.n_qubits op.terms er tr hl with
          ⟨e', he', tr', ev, htr, hev, hall⟩
        have hee : e' = e := by
          have h6 := he'.symm.trans h
          simp at h6
          exact h6
        subst hee
        refine ⟨.export_to_cirq circuit (.ok cc) :: tr', ev, ?_, hev, ?_⟩
        · simp [htr]
        · intro ev' hev'
          rcases List.mem_cons.mp hev' with rfl | hin
          · simp [ExtCall.errOf]
          · exact hall ev' hin
      · simp [Except.map] at h
  · intro wf h
    rcases wf_shape env sim circuit initial_state with
      ⟨e2, h1, hres⟩ | ⟨cc, e2, h1, h2, hres⟩ | ⟨cc, r, e2, h1, h2, h3, hres⟩ |
      ⟨cc, r, wf2, h1, h2, h3, hres⟩ <;> rw [hres] at h ⊢ <;> simp at h
    simp [ExtCall.errOf]
  · intro evs h
    rcases noisy_shape env sim circuit op with
      ⟨hn, hres⟩ | ⟨nm, e2, hn, he, hres⟩ | ⟨nm, cc, hn, he, hres⟩ <;> rw [hres] at h ⊢ <;>
    try simp at h
    rcases hl : termLoop env sim nm cc circuit.n_qubits op.terms with ⟨res, tr⟩
    rw [hl] at h
    dsimp only at h ⊢
    rcases res with er | vs
    · simp [Except.map] at h
    · intro ev hev
      rcases List.mem_cons.mp hev with rfl | hin
      · simp [ExtCall.errOf]
      · exact termLoop_ok_trace env sim nm cc circuit.n_qubits op.terms vs tr hl ev hin

/-- Witness for C7: with a sparsification that raises library error `42`, the
noisy path returns exactly that error and its last trace event carries it. -/
theorem library_errors_propagate_unchanged_witness :
    ∃ tr' ev, (get_exact_noisy_expectation_values failEnv exSim exCircuit exOp).2 =
        tr' ++ [ev] ∧ ev.errOf = some 42 ∧ ∀ ev' ∈ tr', ev'.errOf = none :=
  (library_errors_propagate_unchanged failEnv exSim exCircuit [] exOp).2.2.1 42 (by decide)

/-- C8: the wavefunction path appends `I(0), …, I(n_qubits-1)` to the circuit
before converting it, so the exported circuit mentions every qubit index (no
inactive qubits) and its qubit count is unchanged; the padding is a pure
function of the input circuit (each `+=` builds a new circuit value), so the
caller's circuit object is untouched. -/
theorem identity_padding_before_export {C R : Type} (env : CirqEnv C R)
    (sim : CirqBasedSimulator C R) (circuit : Circuit) (initial_state : List CC) :
    (addIdentityGates circuit).ops =
        circuit.ops ++ (List.range circuit.n_qubits).map GateOp.I ∧
    (addIdentityGates circuit).n_qubits = circuit.n_qubits ∧
    (∀ i, i < circuit.n_qubits → GateOp.I i ∈ (addIdentityGates circuit).ops) ∧
    (∃ out rest, (get_wavefunction_from_native_circuit env sim circuit initial_state).2 =
        ExtCall.export_to_cirq (addIdentityGates circuit) out :: rest) := by
  refine ⟨(addIdentityGates_spec circuit).1, (addIdentityGates_spec circuit).2, ?_, ?_⟩
  · intro i hi
    rw [(addIdentityGates_spec circuit).1]
    exact List.mem_append_right _ (List.mem_map_of_mem GateOp.I (List.mem_range.mpr hi))
  · rcases wf_shape env sim circuit initial_state with
      ⟨e, h1, hres⟩ | ⟨cc, e, h1, h2, hres⟩ | ⟨cc, r, e, h1, h2, h3, hres⟩ |
      ⟨cc, r, wf, h1, h2, h3, hres⟩ <;> rw [hres] <;> exact ⟨_, _, rfl⟩

/-- Witness for C8 at concrete inputs. -/
theorem identity_padding_before_export_witness :
    GateOp.I 1 ∈ (addIdentityGates exCircuit).ops :=
  (identity_padding_before_export exEnv exSim exCircuit []).2.2.1 1 (by decide)

/-- C9 counterexample: for a constant term whose single sparse-array entry is
the purely imaginary `i`, the expectation value the adapter returns for that
term is `0` (the entry's real part, after `expectation_values_to_real`), not
the entry itself, refuting the claim that the returned value is the single
matrix entry; the entry is recorded verbatim only in the intermediate
`values` list. -/
theorem constant_term_returned_value_differs :
    imagEnv.get_sparse_operator 0 exCircuit.n_qubits = .ok [[⟨0, 1⟩]] ∧
    npSize [[(⟨0, 1⟩ : CC)]] = 1 ∧
    (get_exact_noisy_expectation_values imagEnv exSim exCircuit imagOp).1 =
      .ok ⟨[⟨0, 0⟩]⟩ ∧
    entry00 [[(⟨0, 1⟩ : CC)]] ≠ ⟨0, 0⟩ := by decide

/-- C9 amended: for a term whose sparse array has exactly one entry, the loop
records that entry verbatim as the term's value (the finally returned value
is its real part) and makes no `simulate` call for it; every other
successfully processed term makes exactly one `simulate` call. -/
theorem constant_term_skips_simulation {C R : Type} (env : CirqEnv C R)
    (sim : CirqBasedSimulator C R) (nm : NoiseModel) (cc : C) (n : Nat) (t : PauliTerm) :
    (∀ m, env.get_sparse_operator t n = .ok m → npSize m = 1 →
      termStep env sim nm cc n t =
        (.ok (entry00 m), [.get_sparse_operator t n (.ok m)]) ∧
      ∀ ev ∈ (termStep env sim nm cc n t).2, ev.isSimulate = false) ∧
    (∀ m v tr, env.get_sparse_operator t n = .ok m → ¬ npSize m = 1 →
      termStep env sim nm cc n t = (.ok v, tr) →
      tr.countP (fun ev => ev.isSimulate) = 1) := by
  constructor
  · intro m h1 hs
    have heq : termStep env sim nm cc n t =
        (.ok (entry00 m), [.get_sparse_operator t n (.ok m)]) := by
      simp [termStep, h1, hs]
    exact ⟨heq, by rw [heq]; simp [ExtCall.isSimulate]⟩
  · intro m v tr h1 hs heq
    rcases termStep_shape env sim nm cc n t with
      ⟨e, h1b, h5⟩ | ⟨m2, h1b, hs2, h5⟩ | ⟨m2, e, h1b, hs2, h2, h5⟩ |
      ⟨m2, noisy, e, h1b, hs2, h2, h3, h5⟩ | ⟨m2, noisy, r, e, h1b, hs2, h2, h3, h4, h5⟩ |
      ⟨m2, noisy, r, rho, h1b, hs2, h2, h3, h4, h5⟩ <;>
    rw [h5] at heq <;> simp only [Prod.mk.injEq] at heq
    · exact absurd heq.1 (fun hh => Except.noConfusion hh)
    · have hm : m2 = m := by
        have := h1b.symm.trans h1
        simpa using this
      subst hm
      exact absurd hs2 hs
    · exact absurd heq.1 (fun hh => Except.noConfusion hh)
    · exact absurd heq.1 (fun hh => Except.noConfusion hh)
    · exact absurd heq.1 (fun hh => Except.noConfusion hh)
    · rw [← heq.2]
      simp [List.countP_cons, ExtCall.isSimulate]

/-- Witness for the amended C9 at concrete inputs: the constant term `0` makes
no simulate call; the non-constant term `1` makes exactly one. -/
theorem constant_term_skips_simulation_witness :
    (termStep exEnv exSim 2 2 2 0 =
      (.ok (entry00 [[⟨3, 1⟩]]), [.get_sparse_operator 0 2 (.ok [[⟨3, 1⟩]])])) ∧
    List.countP (fun ev => ev.isSimulate)
      [ExtCall.get_sparse_operator 1 2 (.ok [[⟨1, 0⟩, 0], [0, ⟨-1, 0⟩]]),
       ExtCall.with_noise 2 2 (.ok 23),
       ExtCall.simulate ⟨23, none, .DEFAULT, none⟩ (.ok (123 : Nat)),
       ExtCall.density_matrix_of (123 : Nat) (.ok [[⟨1, 0⟩, 0], [0, 0]])] = 1 :=
  ⟨((constant_term_skips_simulation exEnv exSim 2 2 2 0).1 [[⟨3, 1⟩]]
      (by decide) (by decide)).1,
   (constant_term_skips_simulation exEnv exSim 2 2 2 1).2 [[⟨1, 0⟩, 0], [0, ⟨-1, 0⟩]]
      ⟨1, 0⟩ _ (by decide) (by decide) (by decide)⟩

/-- Taking real parts commutes with positional lookup. -/
theorem getD_map_real (vs : List CC) (j : Nat) :
    (vs.map (fun v => (⟨v.re, 0⟩ : CC))).getD j 0 = ⟨(vs.getD j 0).re, 0⟩ := by
  induction vs generalizing j with
  | nil => rcases j with _ | j <;> rfl
  | cons v vs ih =>
    rcases j with _ | j
    · rfl
    · exact ih j

/-- C10: a successful noisy expectation-value computation returns exactly one
value per operator term, positionally matching the operator's term order, and
every returned value is real (`np.real` on simulated terms and
`expectation_values_to_real` on the final result discard imaginary parts). -/
theorem one_real_value_per_term_in_order {C R : Type} (env : CirqEnv C R)
    (sim : CirqBasedSimulator C R) (circuit : Circuit) (op : PauliRepresentation)
    (nm : NoiseModel) (cc : C) (evs : ExpectationValues)
    (hn : sim.noise_model = some nm) (he : env.export_to_cirq circuit = .ok cc)
    (h : (get_exact_noisy_expectation_values env sim circuit op).1 = .ok evs) :
    ∃ vs, termValues env sim nm cc circuit.n_qubits op.terms = .ok vs ∧
      evs = expectation_values_to_real ⟨vs⟩ ∧
      evs.values.length = op.terms.length ∧
      (∀ j, j < op.terms.length →
        termValue env sim nm cc circuit.n_qubits (op.terms.getD j 0) =
          .ok (vs.getD j 0) ∧
        evs.values.getD j 0 = ⟨(vs.getD j 0).re, 0⟩) ∧
      ∀ v ∈ evs.values, v.im = 0 := by
  rcases noisy_shape env sim circuit op with
    ⟨hn2, hres⟩ | ⟨nm2, e, hn2, he2, hres⟩ | ⟨nm2, cc2, hn2, he2, hres⟩
  · rw [hn] at hn2; exact Option.noConfusion hn2
  · exact absurd (he.symm.trans he2) (by simp)
  · obtain rfl : nm = nm2 := Option.some.inj (hn.symm.trans hn2)
    obtain rfl : cc = cc2 := Except.ok.inj (he.symm.trans he2)
    rw [hres] at h
    rcases hl : termLoop env sim nm cc circuit.n_qubits op.terms with ⟨res, tr⟩
    rw [hl] at h
    dsimp only at h
    rcases res with er | vs
    · simp [Except.map] at h
    · simp only [Except.map, Except.ok.injEq] at h
      have hval : termValues env sim nm cc circuit.n_qubits op.terms = .ok vs := by
        rw [← termLoop_fst env sim nm cc circuit.n_qubits op.terms, hl]
      rcases termValues_ok env sim nm cc circuit.n_qubits op.terms vs hval with
        ⟨hlen, hget⟩
      refine ⟨vs, hval, h.symm, ?_, ?_, ?_⟩
      · rw [← h]
        simpa [expectation_values_to_real] using hlen
      · intro j hj
        refine ⟨hget j hj, ?_⟩
        rw [← h]
        simpa [expectation_values_to_real] using getD_map_real vs j
      · intro v hv
        rw [← h] at hv
        simp only [expectation_values_to_real, List.mem_map] at hv
        rcases hv with ⟨u, -, rfl⟩
        rfl

/-- Witness for C10 at concrete inputs: the two-term operator yields the two
real values `3` and `1`, in term order. -/
theorem one_real_value_per_term_in_order_witness :
    ∃ vs, termValues exEnv exSim 2 2 exCircuit.n_qubits exOp.terms = .ok vs ∧
      (⟨[⟨3, 0⟩, ⟨1, 0⟩]⟩ : ExpectationValues) = expectation_values_to_real ⟨vs⟩ ∧
      (⟨[⟨3, 0⟩, ⟨1, 0⟩]⟩ : ExpectationValues).values.length = exOp.terms.length ∧
      (∀ j, j < exOp.terms.length →
        termValue exEnv exSim 2 2 exCircuit.n_qubits (exOp.terms.getD j 0) =
          .ok (vs.getD j 0) ∧
        (⟨[⟨3, 0⟩, ⟨1, 0⟩]⟩ : ExpectationValues).values.getD j 0 =
          ⟨(vs.getD j 0).re, 0⟩) ∧
      ∀ v ∈ (⟨[⟨3, 0⟩, ⟨1, 0⟩]⟩ : ExpectationValues).values, v.im = 0 :=
  one_real_value_per_term_in_order exEnv exSim exCircuit exOp 2 2
    ⟨[⟨3, 0⟩, ⟨1, 0⟩]⟩ (by rfl) (by decide) (by decide)
